import Mathlib

/-!
Shallow embedding of the Go package `internal/todo` of rahul4507/todo
(`todo.go`, used by `cmd/todo/main.go`).

Go `int` is modelled as `Int`, `time.Time` as `Int` (an instant; `Before`
is `<`), `*time.Time` as `Option Int`, slices as `List`, and a method with
receiver `*List` returning `error` as a function
`TodoList → args → TodoList × Option String` (the resulting list and the
returned error, `none` meaning `nil`).  `Priority` is a Go `int`-typed
enum, modelled as `Int` with the three constants below.
-/

/-- Go `Priority` constant `PriorityLow` (iota value 0). -/
def PriorityLow : Int := 0

/-- Go `Priority` constant `PriorityMedium` (iota value 1). -/
def PriorityMedium : Int := 1

/-- Go `Priority` constant `PriorityHigh` (iota value 2). -/
def PriorityHigh : Int := 2

/-- Go struct `Item`: one task.  Field names follow the source. -/
structure Item where
  Text : String
  Done : Bool
  Priority : Int
  DueDate : Option Int
  Tags : List String
  CreatedAt : Int
deriving Repr, DecidableEq

/-- Go `NewItem(text)`.  `time.Now()` is passed explicitly as `now`. -/
def NewItem (text : String) (now : Int) : Item :=
  { Text := text
    Done := false
    Priority := PriorityMedium
    DueDate := none
    Tags := []
    CreatedAt := now }

/-- Go struct `List` (named `TodoList` here to avoid clashing with Lean's
`List`). -/
structure TodoList where
  Items : List Item
deriving Repr, DecidableEq

/-- Go `NewList()`. -/
def NewList : TodoList := ⟨[]⟩

/-- In-place update `xs[i] = f xs[i]` of a Go slice element. -/
def modifyAt (xs : List Item) (i : Nat) (f : Item → Item) : List Item :=
  match xs, i with
  | [], _ => []
  | x :: rest, 0 => f x :: rest
  | x :: rest, n + 1 => x :: modifyAt rest n f

/-- The Go error message shared by all index-taking operations. -/
def oorMsg : String := "Item index out of Range"

/-- Go `(*List) Add(text)`: reject duplicate text, else append.
The source loops over `l.Items` returning on the first equal text;
`List.any` expresses that loop. -/
def TodoList.Add (l : TodoList) (text : String) (now : Int) :
    TodoList × Option String :=
  let item := NewItem text now
  if l.Items.any (fun existing => existing.Text == item.Text) then
    (l, some "Item already exists in the list")
  else
    (⟨l.Items ++ [item]⟩, none)

/-- The body of `Sort`'s loop: route `item` into the `completed` or the
`incomplete` accumulator, appending in list order. -/
def sortStep (acc : List Item × List Item) (item : Item) :
    List Item × List Item :=
  if item.Done then (acc.1, acc.2 ++ [item])
  else (acc.1 ++ [item], acc.2)

/-- Go `(*List) Sort()`: one pass splitting into `incomplete` and
`completed`, then concatenation. -/
def TodoList.Sort (l : TodoList) : TodoList :=
  let p := l.Items.foldl sortStep ([], [])
  ⟨p.1 ++ p.2⟩

/-- Go `(*List) Complete(index)`: bounds check, set `Done`, then `Sort`. -/
def TodoList.Complete (l : TodoList) (index : Int) :
    TodoList × Option String :=
  if index < 0 || (l.Items.length : Int) ≤ index then (l, some oorMsg)
  else
    (TodoList.Sort ⟨modifyAt l.Items index.toNat (fun it => { it with Done := true })⟩,
     none)

/-- Go `(*List) Uncomplete(index)`: bounds check, clear `Done`, then `Sort`. -/
def TodoList.Uncomplete (l : TodoList) (index : Int) :
    TodoList × Option String :=
  if index < 0 || (l.Items.length : Int) ≤ index then (l, some oorMsg)
  else
    (TodoList.Sort ⟨modifyAt l.Items index.toNat (fun it => { it with Done := false })⟩,
     none)

/-- Go `(*List) Delete(index)`: `append(l.Items[:index], l.Items[index+1:]...)`. -/
def TodoList.Delete (l : TodoList) (index : Int) :
    TodoList × Option String :=
  if index < 0 || (l.Items.length : Int) ≤ index then (l, some oorMsg)
  else (⟨l.Items.eraseIdx index.toNat⟩, none)

/-- Go `(*List) Edit(index, newText)`. -/
def TodoList.Edit (l : TodoList) (index : Int) (newText : String) :
    TodoList × Option String :=
  if index < 0 || (l.Items.length : Int) ≤ index then (l, some oorMsg)
  else if newText == "" then (l, some "Task text cannot be empty")
  else (⟨modifyAt l.Items index.toNat (fun it => { it with Text := newText })⟩, none)

/-- The body of `ClearCompleted`'s loop: keep a not-done item, count a
done one. -/
def clearStep (acc : List Item × Int) (item : Item) : List Item × Int :=
  if !item.Done then (acc.1 ++ [item], acc.2) else (acc.1, acc.2 + 1)

/-- Go `(*List) ClearCompleted()`: keep the not-done items, return the
number removed. -/
def TodoList.ClearCompleted (l : TodoList) : TodoList × Int :=
  let p := l.Items.foldl clearStep ([], 0)
  (⟨p.1⟩, p.2)

/-- Go `(*List) SetPriority(index, priority)`. -/
def TodoList.SetPriority (l : TodoList) (index : Int) (priority : Int) :
    TodoList × Option String :=
  if index < 0 || (l.Items.length : Int) ≤ index then (l, some oorMsg)
  else (⟨modifyAt l.Items index.toNat (fun it => { it with Priority := priority })⟩, none)

/-- Go `(*List) SetDueDate(index, dueDate)`; the Go code stores `&dueDate`. -/
def TodoList.SetDueDate (l : TodoList) (index : Int) (dueDate : Int) :
    TodoList × Option String :=
  if index < 0 || (l.Items.length : Int) ≤ index then (l, some oorMsg)
  else (⟨modifyAt l.Items index.toNat (fun it => { it with DueDate := some dueDate })⟩, none)

/-- Go `(*List) AddTag(index, tag)`: bounds check, reject a duplicate tag,
else append. -/
def TodoList.AddTag (l : TodoList) (index : Int) (tag : String) :
    TodoList × Option String :=
  if index < 0 || (l.Items.length : Int) ≤ index then (l, some oorMsg)
  else
    let tags := (l.Items.get? index.toNat).elim [] Item.Tags
    if tags.any (fun t => t == tag) then (l, some "Tag already exists")
    else (⟨modifyAt l.Items index.toNat (fun it => { it with Tags := it.Tags ++ [tag] })⟩, none)

/-- The loop body of Go `RemoveTag`: remove the first occurrence of `tag`,
or report that none was found. -/
def removeFirstTag : List String → String → Option (List String)
  | [], _ => none
  | t :: rest, tag =>
    if t == tag then some rest
    else (removeFirstTag rest tag).map (fun ts => t :: ts)

/-- Go `(*List) RemoveTag(index, tag)`. -/
def TodoList.RemoveTag (l : TodoList) (index : Int) (tag : String) :
    TodoList × Option String :=
  if index < 0 || (l.Items.length : Int) ≤ index then (l, some oorMsg)
  else
    let tags := (l.Items.get? index.toNat).elim [] Item.Tags
    match removeFirstTag tags tag with
    | some ts => (⟨modifyAt l.Items index.toNat (fun it => { it with Tags := ts })⟩, none)
    | none => (l, some "Tag not found")

/-- `needle` occurs contiguously inside `hay`. -/
def hasSubstr : List Char → List Char → Bool
  | hay, needle =>
    needle.isPrefixOf hay ||
    match hay with
    | [] => false
    | _ :: rest => hasSubstr rest needle

/-- Go `strings.Contains(s, sub)`: `sub` occurs as a contiguous substring. -/
def goContains (s sub : String) : Bool :=
  hasSubstr s.toList sub.toList

/-- The body of `Search`'s loop over items (`q` is the already lowered
query): append the item when its lowered text contains `q`, otherwise
when some lowered tag does (the inner loop with `break` is `List.any`). -/
def searchStep (q : String) (results : List Item) (item : Item) :
    List Item :=
  if goContains item.Text.toLower q then results ++ [item]
  else if item.Tags.any (fun tag => goContains tag.toLower q) then
    results ++ [item]
  else results

/-- Go `(*List) Search(query)`: lower-case the query, then scan items. -/
def TodoList.Search (l : TodoList) (query : String) : List Item :=
  l.Items.foldl (searchStep query.toLower) []

/-- The body of `GetOverdue`'s loop: append the item when its due date is
set, strictly before `now`, and the item is not done. -/
def overdueStep (now : Int) (results : List Item) (item : Item) :
    List Item :=
  match item.DueDate with
  | some d => if d < now && !item.Done then results ++ [item] else results
  | none => results

/-- Go `(*List) GetOverdue()`: items past their due date and not done.
`time.Now()` is passed explicitly as `now`. -/
def TodoList.GetOverdue (l : TodoList) (now : Int) : List Item :=
  l.Items.foldl (overdueStep now) []

/-!
Persistence (`Save`/`Load`) via Go `encoding/json`.

JSON values are modelled as an AST rather than byte strings.
`Json.tstr t` stands for the RFC 3339 string that `time.Time.MarshalJSON`
produces for the instant `t`; that encoding is injective on instants, so
it is kept abstract.  `json.Unmarshal` first runs a full syntax check
(`checkValid`) and only then decodes into the live receiver, merging into
existing values: on a type mismatch it records the first error, leaves
that field's old value, and keeps decoding the rest.  JSON `null` is a
no-op for scalar and struct fields, and sets pointer and slice fields to
nil.  Unknown object keys are ignored; keys match struct fields exactly
or case-insensitively.
-/

inductive Json where
  | null
  | bool (b : Bool)
  | num (n : Int)
  | str (s : String)
  | tstr (t : Int)
  | arr (elems : List Json)
  | obj (entries : List (String × Json))

/-- `json.Marshal` of one `Item`: fields in declaration order; `DueDate`
and `Tags` carry `omitempty`, so a nil due date and an empty tag slice
are omitted. -/
def marshalItem (it : Item) : Json :=
  Json.obj
    ([("Text", Json.str it.Text), ("Done", Json.bool it.Done),
      ("Priority", Json.num it.Priority)]
      ++ (match it.DueDate with
          | some d => [("DueDate", Json.tstr d)]
          | none => [])
      ++ (match it.Tags with
          | [] => []
          | _ => [("Tags", Json.arr (it.Tags.map Json.str))])
      ++ [("CreatedAt", Json.tstr it.CreatedAt)])

/-- `json.Marshal` of a `List`. -/
def marshalList (l : TodoList) : Json :=
  Json.obj [("Items", Json.arr (l.Items.map marshalItem))]

/-- `strings.EqualFold`-style case-insensitive name comparison, over the
characters of the two names. -/
def goEqualFold (a b : String) : Bool :=
  a.toList.map Char.toLower == b.toList.map Char.toLower

/-- How `json.Unmarshal` matches an object key against a struct field:
exact match or case-insensitive match. -/
def goFieldMatch (key fieldName : String) : Bool :=
  key == fieldName || goEqualFold key fieldName

/-- Decode a JSON value into a `string` field holding `old`. -/
def decodeString (j : Json) (old : String) : String × Bool :=
  match j with
  | Json.str s => (s, false)
  | Json.null => (old, false)
  | _ => (old, true)

/-- Decode a JSON value into a `bool` field holding `old`. -/
def decodeBool (j : Json) (old : Bool) : Bool × Bool :=
  match j with
  | Json.bool b => (b, false)
  | Json.null => (old, false)
  | _ => (old, true)

/-- Decode a JSON value into an `int`-kinded field (`Priority`). -/
def decodeInt (j : Json) (old : Int) : Int × Bool :=
  match j with
  | Json.num n => (n, false)
  | Json.null => (old, false)
  | _ => (old, true)

/-- Decode a JSON value into a `time.Time` field (`CreatedAt`);
`time.Time.UnmarshalJSON` ignores `null` and rejects non-strings. -/
def decodeTime (j : Json) (old : Int) : Int × Bool :=
  match j with
  | Json.tstr t => (t, false)
  | Json.null => (old, false)
  | _ => (old, true)

/-- Decode a JSON value into the `*time.Time` field (`DueDate`):
`null` sets the pointer to nil. -/
def decodeOptTime (j : Json) (old : Option Int) : Option Int × Bool :=
  match j with
  | Json.tstr t => (some t, false)
  | Json.null => (none, false)
  | _ => (old, true)

/-- Decode a JSON array's elements into a `[]string`, merging with the
existing elements positionally: the result has the array's length, each
element decoded on top of the old element at that position (or the zero
string beyond the old length). -/
def decodeStringElems : List Json → List String → List String × Bool
  | [], _ => ([], false)
  | j :: js, old =>
    let base := match old with | [] => "" | o :: _ => o
    let hd := decodeString j base
    let tl := decodeStringElems js old.tail
    (hd.1 :: tl.1, hd.2 || tl.2)

/-- Decode a JSON value into the `[]string` field (`Tags`). -/
def decodeTags (j : Json) (old : List String) : List String × Bool :=
  match j with
  | Json.arr es => decodeStringElems es old
  | Json.null => ([], false)
  | _ => (old, true)

/-- The zero value of Go's `Item` struct. -/
def zeroItem : Item :=
  { Text := "", Done := false, Priority := 0, DueDate := none,
    Tags := [], CreatedAt := 0 }

/-- Decode one object entry into the matching `Item` field (unknown keys
are ignored without error). -/
def decodeItemEntry (it : Item) (key : String) (v : Json) : Item × Bool :=
  if goFieldMatch key "Text" then
    let r := decodeString v it.Text; ({ it with Text := r.1 }, r.2)
  else if goFieldMatch key "Done" then
    let r := decodeBool v it.Done; ({ it with Done := r.1 }, r.2)
  else if goFieldMatch key "Priority" then
    let r := decodeInt v it.Priority; ({ it with Priority := r.1 }, r.2)
  else if goFieldMatch key "DueDate" then
    let r := decodeOptTime v it.DueDate; ({ it with DueDate := r.1 }, r.2)
  else if goFieldMatch key "Tags" then
    let r := decodeTags v it.Tags; ({ it with Tags := r.1 }, r.2)
  else if goFieldMatch key "CreatedAt" then
    let r := decodeTime v it.CreatedAt; ({ it with CreatedAt := r.1 }, r.2)
  else (it, false)

/-- Decode an object's entries, in order, into an `Item`. -/
def decodeItemObj : List (String × Json) → Item → Item × Bool
  | [], it => (it, false)
  | (k, v) :: rest, it =>
    let r := decodeItemEntry it k v
    let r2 := decodeItemObj rest r.1
    (r2.1, r.2 || r2.2)

/-- Decode a JSON value into an `Item` struct holding `old`. -/
def decodeItem (j : Json) (old : Item) : Item × Bool :=
  match j with
  | Json.obj entries => decodeItemObj entries old
  | Json.null => (old, false)
  | _ => (old, true)

/-- Decode a JSON array's elements into a `[]Item`, merging positionally
as `decodeStringElems` does. -/
def decodeItemElems : List Json → List Item → List Item × Bool
  | [], _ => ([], false)
  | j :: js, old =>
    let base := match old with | [] => zeroItem | o :: _ => o
    let hd := decodeItem j base
    let tl := decodeItemElems js old.tail
    (hd.1 :: tl.1, hd.2 || tl.2)

/-- Decode a JSON value into the `[]Item` field (`Items`). -/
def decodeItems (j : Json) (old : List Item) : List Item × Bool :=
  match j with
  | Json.arr es => decodeItemElems es old
  | Json.null => ([], false)
  | _ => (old, true)

/-- Decode an object's entries, in order, into a `List` receiver. -/
def decodeListObj : List (String × Json) → TodoList → TodoList × Bool
  | [], l => (l, false)
  | (k, v) :: rest, l =>
    let r :=
      if goFieldMatch k "Items" then
        let d := decodeItems v l.Items
        ((⟨d.1⟩ : TodoList), d.2)
      else (l, false)
    let r2 := decodeListObj rest r.1
    (r2.1, r.2 || r2.2)

/-- `json.Unmarshal` of a parsed JSON value into a `*List` receiver. -/
def unmarshalList (j : Json) (l : TodoList) : TodoList × Bool :=
  match j with
  | Json.obj entries => decodeListObj entries l
  | Json.null => (l, false)
  | _ => (l, true)

/-- Contents of the file handed to `Load`: either bytes that cannot be
read or are not syntactically valid JSON (where `json.Unmarshal` fails
during `checkValid`, before touching the receiver), or a parsed JSON
value. -/
inductive FileData where
  | invalid
  | valid (j : Json)

/-- Go `(*List) Save(filename)`: `json.Marshal` then `os.WriteFile`;
modelled as producing the written file contents. -/
def TodoList.Save (l : TodoList) : FileData :=
  FileData.valid (marshalList l)

/-- Go `(*List) Load(filename)`: read the file, then `json.Unmarshal`
into the live receiver `l`. -/
def TodoList.Load (l : TodoList) (fd : FileData) : TodoList × Option String :=
  match fd with
  | FileData.invalid => (l, some "invalid JSON input")
  | FileData.valid j =>
    let r := unmarshalList j l
    (r.1, if r.2 then some "json: cannot unmarshal" else none)

/-!  Reachability through the public mutating operations, starting from
`NewList`.  Each constructor applies one operation to a reachable list and
keeps the resulting list (on an error return the list is the unchanged
receiver).  `Reachable` places no condition on arguments; `ReachableNE`
is the same relation with every `Add` call restricted to non-empty
text. -/

inductive Reachable : TodoList → Prop where
  | nil : Reachable NewList
  | add (l : TodoList) (t : String) (now : Int) :
      Reachable l → Reachable (l.Add t now).1
  | complete (l : TodoList) (i : Int) :
      Reachable l → Reachable (l.Complete i).1
  | uncomplete (l : TodoList) (i : Int) :
      Reachable l → Reachable (l.Uncomplete i).1
  | delete (l : TodoList) (i : Int) :
      Reachable l → Reachable (l.Delete i).1
  | edit (l : TodoList) (i : Int) (t : String) :
      Reachable l → Reachable (l.Edit i t).1
  | setPriority (l : TodoList) (i : Int) (p : Int) :
      Reachable l → Reachable (l.SetPriority i p).1
  | setDueDate (l : TodoList) (i : Int) (d : Int) :
      Reachable l → Reachable (l.SetDueDate i d).1
  | addTag (l : TodoList) (i : Int) (t : String) :
      Reachable l → Reachable (l.AddTag i t).1
  | removeTag (l : TodoList) (i : Int) (t : String) :
      Reachable l → Reachable (l.RemoveTag i t).1
  | clearCompleted (l : TodoList) :
      Reachable l → Reachable l.ClearCompleted.1
  | sort (l : TodoList) :
      Reachable l → Reachable l.Sort

inductive ReachableNE : TodoList → Prop where
  | nil : ReachableNE NewList
  | add (l : TodoList) (t : String) (now : Int) :
      ReachableNE l → t ≠ "" → ReachableNE (l.Add t now).1
  | complete (l : TodoList) (i : Int) :
      ReachableNE l → ReachableNE (l.Complete i).1
  | uncomplete (l : TodoList) (i : Int) :
      ReachableNE l → ReachableNE (l.Uncomplete i).1
  | delete (l : TodoList) (i : Int) :
      ReachableNE l → ReachableNE (l.Delete i).1
  | edit (l : TodoList) (i : Int) (t : String) :
      ReachableNE l → ReachableNE (l.Edit i t).1
  | setPriority (l : TodoList) (i : Int) (p : Int) :
      ReachableNE l → ReachableNE (l.SetPriority i p).1
  | setDueDate (l : TodoList) (i : Int) (d : Int) :
      ReachableNE l → ReachableNE (l.SetDueDate i d).1
  | addTag (l : TodoList) (i : Int) (t : String) :
      ReachableNE l → ReachableNE (l.AddTag i t).1
  | removeTag (l : TodoList) (i : Int) (t : String) :
      ReachableNE l → ReachableNE (l.RemoveTag i t).1
  | clearCompleted (l : TodoList) :
      ReachableNE l → ReachableNE l.ClearCompleted.1
  | sort (l : TodoList) :
      ReachableNE l → ReachableNE l.Sort

/-- The spec's search criterion, stated from its words: case-insensitive
substring match of the query against the item's text, or against any of
the item's tags. -/
def specSearchMatch (query : String) (item : Item) : Bool :=
  goContains item.Text.toLower query.toLower ||
  item.Tags.any (fun tag => goContains tag.toLower query.toLower)

/-- The spec's overdue criterion, stated from its words: a due date is
set, it is strictly before the current instant, and the item is not
done. -/
def specOverdue (now : Int) (item : Item) : Bool :=
  match item.DueDate with
  | some d => decide (d < now) && !item.Done
  | none => false

/-- A file holding syntactically valid JSON that is not a valid encoding
of a `List`: the single item has a boolean `Done` but a numeric `Text`. -/
def c6File : FileData :=
  FileData.valid (Json.obj
    [("Items", Json.arr
      [Json.obj [("Done", Json.bool true), ("Text", Json.num 5)]])])

/-!  Helper lemmas. -/

theorem foldl_append_filter (p : Item → Bool)
    (step : List Item → Item → List Item)
    (hstep : ∀ res item, step res item =
        if p item then res ++ [item] else res) :
    ∀ (xs : List Item) (acc : List Item),
      List.foldl step acc xs = acc ++ xs.filter p
  | [], acc => by simp
  | x :: rest, acc => by
    rw [List.foldl_cons, hstep, List.filter_cons]
    cases hp : p x
    · rw [if_neg (by simp [hp]), if_neg (by simp [hp]),
        foldl_append_filter p step hstep rest acc]
    · rw [if_pos (by simp [hp]), if_pos (by simp [hp]),
        foldl_append_filter p step hstep rest (acc ++ [x])]
      simp

theorem sortFoldl :
    ∀ (xs : List Item) (a b : List Item),
      List.foldl sortStep (a, b) xs
        = (a ++ xs.filter (fun it => !it.Done),
           b ++ xs.filter (fun it => it.Done))
  | [], a, b => by simp
  | x :: rest, a, b => by
    rw [List.foldl_cons]
    cases hD : x.Done
    · rw [show sortStep (a, b) x = (a ++ [x], b) from by
        simp [sortStep, hD]]
      rw [sortFoldl rest (a ++ [x]) b]
      simp [List.filter_cons, hD]
    · rw [show sortStep (a, b) x = (a, b ++ [x]) from by
        simp [sortStep, hD]]
      rw [sortFoldl rest a (b ++ [x])]
      simp [List.filter_cons, hD]

theorem Sort_eq_filter (l : TodoList) :
    l.Sort = ⟨l.Items.filter (fun it => !it.Done)
              ++ l.Items.filter (fun it => it.Done)⟩ := by
  simp [TodoList.Sort, sortFoldl]

theorem clearFoldl :
    ∀ (xs : List Item) (a : List Item) (c : Int),
      (List.foldl clearStep (a, c) xs).1
        = a ++ xs.filter (fun it => !it.Done)
  | [], a, c => by simp
  | x :: rest, a, c => by
    rw [List.foldl_cons]
    cases hD : x.Done
    · rw [show clearStep (a, c) x = (a ++ [x], c) from by
        simp [clearStep, hD]]
      rw [clearFoldl rest (a ++ [x]) c]
      simp [List.filter_cons, hD]
    · rw [show clearStep (a, c) x = (a, c + 1) from by
        simp [clearStep, hD]]
      rw [clearFoldl rest a (c + 1)]
      simp [List.filter_cons, hD]

theorem searchStep_eq (q : String) (res : List Item) (item : Item) :
    searchStep q res item =
      if (goContains item.Text.toLower q ||
          item.Tags.any (fun tag => goContains tag.toLower q)) then
        res ++ [item]
      else res := by
  cases h1 : goContains item.Text.toLower q <;>
    cases h2 : item.Tags.any (fun tag => goContains tag.toLower q) <;>
      simp [searchStep, h1, h2]

theorem search_eq_filter (l : TodoList) (query : String) :
    l.Search query = l.Items.filter (specSearchMatch query) := by
  unfold TodoList.Search
  rw [foldl_append_filter (specSearchMatch query) (searchStep query.toLower)
    (fun res item => searchStep_eq query.toLower res item)]
  simp

theorem overdueStep_eq (now : Int) (res : List Item) (item : Item) :
    overdueStep now res item =
      if specOverdue now item then res ++ [item] else res := by
  rcases hDD : item.DueDate with _ | d <;>
    simp [overdueStep, specOverdue, hDD]

theorem overdue_eq_filter (l : TodoList) (now : Int) :
    l.GetOverdue now = l.Items.filter (specOverdue now) := by
  unfold TodoList.GetOverdue
  rw [foldl_append_filter (specOverdue now) (overdueStep now)
    (overdueStep_eq now)]
  simp

theorem modifyAt_length (xs : List Item) (i : Nat) (f : Item → Item) :
    (modifyAt xs i f).length = xs.length := by
  induction xs generalizing i with
  | nil => simp [modifyAt]
  | cons x rest ih =>
    cases i <;> simp [modifyAt, ih]

theorem mem_modifyAt (xs : List Item) (i : Nat) (f : Item → Item)
    (it : Item) (h : it ∈ modifyAt xs i f) :
    it ∈ xs ∨ ∃ it0 ∈ xs, it = f it0 := by
  induction xs generalizing i with
  | nil => simp [modifyAt] at h
  | cons x rest ih =>
    cases i with
    | zero =>
      rcases List.mem_cons.mp h with h | h
      · exact Or.inr ⟨x, List.mem_cons_self x rest, h⟩
      · exact Or.inl (List.mem_cons_of_mem x h)
    | succ n =>
      rcases List.mem_cons.mp h with h | h
      · exact Or.inl (h ▸ List.mem_cons_self x rest)
      · rcases ih n h with h | ⟨it0, h0, he⟩
        · exact Or.inl (List.mem_cons_of_mem x h)
        · exact Or.inr ⟨it0, List.mem_cons_of_mem x h0, he⟩

theorem modifyAt_mem_self (xs : List Item) (i : Nat) (f : Item → Item)
    (h : i < xs.length) :
    f (xs.get ⟨i, h⟩) ∈ modifyAt xs i f := by
  induction xs generalizing i with
  | nil => simp at h
  | cons x rest ih =>
    cases i with
    | zero => simp [modifyAt]
    | succ n =>
      simp only [modifyAt, List.get_cons_succ]
      exact List.mem_cons_of_mem x (ih n (by simpa using h))

theorem hasSubstr_nil (hay : List Char) : hasSubstr hay [] = true := by
  cases hay <;> simp [hasSubstr, List.isPrefixOf]

theorem toLower_empty : "".toLower = "" := by
  rw [String.toLower, String.map, String.mapAux]
  simp [String.atEnd]
  intro h
  exact absurd rfl h

theorem goContains_empty (s : String) : goContains s "" = true := by
  simp [goContains, hasSubstr_nil]

/-!  Unfolding equations for the operations (each is `rfl`: the `let`s and
the Bool coercion of the bounds test reduce definitionally). -/

theorem Add_eq (l : TodoList) (t : String) (now : Int) :
    l.Add t now =
      if (l.Items.any fun existing => existing.Text == t) = true then
        (l, some "Item already exists in the list")
      else (⟨l.Items ++ [NewItem t now]⟩, none) := rfl

theorem Complete_eq (l : TodoList) (i : Int) :
    l.Complete i =
      if (decide (i < 0) || decide ((l.Items.length : Int) ≤ i)) = true then
        (l, some oorMsg)
      else
        (TodoList.Sort
          ⟨modifyAt l.Items i.toNat (fun it => { it with Done := true })⟩,
         none) := rfl

theorem Uncomplete_eq (l : TodoList) (i : Int) :
    l.Uncomplete i =
      if (decide (i < 0) || decide ((l.Items.length : Int) ≤ i)) = true then
        (l, some oorMsg)
      else
        (TodoList.Sort
          ⟨modifyAt l.Items i.toNat (fun it => { it with Done := false })⟩,
         none) := rfl

theorem Delete_eq (l : TodoList) (i : Int) :
    l.Delete i =
      if (decide (i < 0) || decide ((l.Items.length : Int) ≤ i)) = true then
        (l, some oorMsg)
      else (⟨l.Items.eraseIdx i.toNat⟩, none) := rfl

theorem Edit_eq (l : TodoList) (i : Int) (t : String) :
    l.Edit i t =
      if (decide (i < 0) || decide ((l.Items.length : Int) ≤ i)) = true then
        (l, some oorMsg)
      else if (t == "") = true then (l, some "Task text cannot be empty")
      else
        (⟨modifyAt l.Items i.toNat (fun it => { it with Text := t })⟩,
         none) := rfl

theorem SetPriority_eq (l : TodoList) (i : Int) (p : Int) :
    l.SetPriority i p =
      if (decide (i < 0) || decide ((l.Items.length : Int) ≤ i)) = true then
        (l, some oorMsg)
      else
        (⟨modifyAt l.Items i.toNat (fun it => { it with Priority := p })⟩,
         none) := rfl

theorem SetDueDate_eq (l : TodoList) (i : Int) (d : Int) :
    l.SetDueDate i d =
      if (decide (i < 0) || decide ((l.Items.length : Int) ≤ i)) = true then
        (l, some oorMsg)
      else
        (⟨modifyAt l.Items i.toNat (fun it => { it with DueDate := some d })⟩,
         none) := rfl

theorem AddTag_eq (l : TodoList) (i : Int) (tag : String) :
    l.AddTag i tag =
      if (decide (i < 0) || decide ((l.Items.length : Int) ≤ i)) = true then
        (l, some oorMsg)
      else if (((l.Items.get? i.toNat).elim [] Item.Tags).any
          fun t => t == tag) = true then
        (l, some "Tag already exists")
      else
        (⟨modifyAt l.Items i.toNat
            (fun it => { it with Tags := it.Tags ++ [tag] })⟩,
         none) := rfl

theorem RemoveTag_eq (l : TodoList) (i : Int) (tag : String) :
    l.RemoveTag i tag =
      if (decide (i < 0) || decide ((l.Items.length : Int) ≤ i)) = true then
        (l, some oorMsg)
      else
        match removeFirstTag ((l.Items.get? i.toNat).elim [] Item.Tags) tag with
        | some ts =>
          (⟨modifyAt l.Items i.toNat (fun it => { it with Tags := ts })⟩, none)
        | none => (l, some "Tag not found") := rfl

theorem ClearCompleted_items (l : TodoList) :
    l.ClearCompleted.1.Items = l.Items.filter (fun it => !it.Done) := by
  show (List.foldl clearStep ([], 0) l.Items).1 = _
  simpa using clearFoldl l.Items [] 0

/-!  Partition facts. -/

theorem filter_not_append_filter_perm (p : Item → Bool) (xs : List Item) :
    (xs.filter (fun it => !p it) ++ xs.filter p).Perm xs := by
  have h1 := List.filter_append_perm (fun it => !p it) xs
  have h2 : xs.filter (fun x => !(!(p x))) = xs.filter p :=
    List.filter_congr (by intro a _; simp)
  rw [h2] at h1
  exact h1

theorem partition_done_pairwise (xs : List Item) :
    (xs.filter (fun it => !it.Done) ++ xs.filter (fun it => it.Done)).Pairwise
      (fun x y => x.Done = true → y.Done = true) := by
  rw [List.pairwise_append]
  refine ⟨List.pairwise_of_forall_mem_list ?_,
    List.pairwise_of_forall_mem_list ?_, ?_⟩
  · intro a ha b _ hd
    have := (List.mem_filter.mp ha).2
    rw [hd] at this
    simp at this
  · intro a _ b hb _
    simpa using (List.mem_filter.mp hb).2
  · intro a _ b hb _
    simpa using (List.mem_filter.mp hb).2

theorem Sort_idem (l : TodoList) : l.Sort.Sort = l.Sort := by
  rw [Sort_eq_filter l, Sort_eq_filter]
  simp [List.filter_append, List.filter_filter, Bool.and_self,
    Bool.not_and_self, Bool.and_not_self]

theorem mem_sort_items (l : TodoList) (it : Item) (h : it ∈ l.Sort.Items) :
    it ∈ l.Items := by
  rw [Sort_eq_filter] at h
  rcases List.mem_append.mp h with h | h <;> exact (List.mem_filter.mp h).1

theorem text_from_modify (xs : List Item) (i : Nat) (f : Item → Item)
    (hf : ∀ x, (f x).Text = x.Text) (it : Item) (h : it ∈ modifyAt xs i f) :
    ∃ it0 ∈ xs, it.Text = it0.Text := by
  rcases mem_modifyAt xs i f it h with h | ⟨it0, h0, he⟩
  · exact ⟨it, h, rfl⟩
  · exact ⟨it0, h0, he ▸ hf it0⟩

/-!  Round-trip of `json.Marshal` / `json.Unmarshal`. -/

theorem decodeStringElems_roundtrip :
    ∀ (tags : List String),
      decodeStringElems (tags.map Json.str) [] = (tags, false)
  | [] => rfl
  | t :: rest => by
    simp [decodeStringElems, decodeString, decodeStringElems_roundtrip rest]

theorem decodeStringElems_str_cons (tg : String) (js : List Json)
    (old : List String) :
    decodeStringElems (Json.str tg :: js) old
      = (tg :: (decodeStringElems js old.tail).1,
         (decodeStringElems js old.tail).2) := by
  simp [decodeStringElems, decodeString]

theorem decodeItem_roundtrip (it : Item) :
    decodeItem (marshalItem it) zeroItem = (it, false) := by
  rcases it with ⟨text, done, prio, dd, tags, ca⟩
  rcases dd with _ | d <;> rcases tags with _ | ⟨tg, tgs⟩
  · rfl
  · simp +decide [marshalItem, decodeItem, decodeItemObj, decodeItemEntry,
      decodeTags, decodeStringElems_str_cons, decodeStringElems_roundtrip,
      decodeString, decodeBool, decodeInt, decodeOptTime, decodeTime,
      zeroItem]
  · rfl
  · simp +decide [marshalItem, decodeItem, decodeItemObj, decodeItemEntry,
      decodeTags, decodeStringElems_str_cons, decodeStringElems_roundtrip,
      decodeString, decodeBool, decodeInt, decodeOptTime, decodeTime,
      zeroItem]

theorem decodeItemElems_roundtrip :
    ∀ (items : List Item),
      decodeItemElems (items.map marshalItem) [] = (items, false)
  | [] => rfl
  | it :: rest => by
    simp [decodeItemElems, decodeItem_roundtrip,
      decodeItemElems_roundtrip rest]

theorem unmarshal_roundtrip (l : TodoList) :
    unmarshalList (marshalList l) NewList = (l, false) := by
  rcases l with ⟨items⟩
  simp +decide [marshalList, unmarshalList, decodeListObj, decodeItems,
    decodeItemElems_roundtrip, NewList]

theorem reachableNE_texts (l : TodoList) (h : ReachableNE l) :
    ∀ it ∈ l.Items, it.Text ≠ "" := by
  induction h with
  | nil =>
    intro it hit
    simp [NewList] at hit
  | add l t now hR hne ih =>
    intro it hit
    rw [Add_eq] at hit
    by_cases hany : (l.Items.any fun existing => existing.Text == t) = true
    · rw [if_pos hany] at hit
      exact ih it hit
    · rw [if_neg hany] at hit
      rcases List.mem_append.mp hit with h' | h'
      · exact ih it h'
      · rw [List.mem_singleton.mp h']
        exact hne
  | complete l i hR ih =>
    intro it hit
    rw [Complete_eq] at hit
    by_cases hc : (decide (i < 0) || decide ((l.Items.length : Int) ≤ i)) = true
    · rw [if_pos hc] at hit
      exact ih it hit
    · rw [if_neg hc] at hit
      have hm := mem_sort_items _ it hit
      have hm2 : it ∈ modifyAt l.Items i.toNat
          (fun x => { x with Done := true }) := hm
      rcases text_from_modify l.Items i.toNat (fun x => { x with Done := true })
          (fun x => rfl) it hm2 with ⟨it0, h0, he⟩
      rw [he]
      exact ih it0 h0
  | uncomplete l i hR ih =>
    intro it hit
    rw [Uncomplete_eq] at hit
    by_cases hc : (decide (i < 0) || decide ((l.Items.length : Int) ≤ i)) = true
    · rw [if_pos hc] at hit
      exact ih it hit
    · rw [if_neg hc] at hit
      have hm := mem_sort_items _ it hit
      have hm2 : it ∈ modifyAt l.Items i.toNat
          (fun x => { x with Done := false }) := hm
      rcases text_from_modify l.Items i.toNat (fun x => { x with Done := false })
          (fun x => rfl) it hm2 with ⟨it0, h0, he⟩
      rw [he]
      exact ih it0 h0
  | delete l i hR ih =>
    intro it hit
    rw [Delete_eq] at hit
    by_cases hc : (decide (i < 0) || decide ((l.Items.length : Int) ≤ i)) = true
    · rw [if_pos hc] at hit
      exact ih it hit
    · rw [if_neg hc] at hit
      exact ih it (List.eraseIdx_subset _ _ hit)
  | edit l i t hR ih =>
    intro it hit
    rw [Edit_eq] at hit
    by_cases hc : (decide (i < 0) || decide ((l.Items.length : Int) ≤ i)) = true
    · rw [if_pos hc] at hit
      exact ih it hit
    · rw [if_neg hc] at hit
      by_cases ht : (t == "") = true
      · rw [if_pos ht] at hit
        exact ih it hit
      · rw [if_neg ht] at hit
        rcases mem_modifyAt _ _ _ it hit with h' | ⟨it0, h0, he⟩
        · exact ih it h'
        · rw [he]
          simpa using ht
  | setPriority l i p hR ih =>
    intro it hit
    rw [SetPriority_eq] at hit
    by_cases hc : (decide (i < 0) || decide ((l.Items.length : Int) ≤ i)) = true
    · rw [if_pos hc] at hit
      exact ih it hit
    · rw [if_neg hc] at hit
      have hm2 : it ∈ modifyAt l.Items i.toNat
          (fun x => { x with Priority := p }) := hit
      rcases text_from_modify l.Items i.toNat (fun x => { x with Priority := p })
          (fun x => rfl) it hm2 with ⟨it0, h0, he⟩
      rw [he]
      exact ih it0 h0
  | setDueDate l i d hR ih =>
    intro it hit
    rw [SetDueDate_eq] at hit
    by_cases hc : (decide (i < 0) || decide ((l.Items.length : Int) ≤ i)) = true
    · rw [if_pos hc] at hit
      exact ih it hit
    · rw [if_neg hc] at hit
      have hm2 : it ∈ modifyAt l.Items i.toNat
          (fun x => { x with DueDate := some d }) := hit
      rcases text_from_modify l.Items i.toNat (fun x => { x with DueDate := some d })
          (fun x => rfl) it hm2 with ⟨it0, h0, he⟩
      rw [he]
      exact ih it0 h0
  | addTag l i t hR ih =>
    intro it hit
    rw [AddTag_eq] at hit
    by_cases hc : (decide (i < 0) || decide ((l.Items.length : Int) ≤ i)) = true
    · rw [if_pos hc] at hit
      exact ih it hit
    · rw [if_neg hc] at hit
      by_cases hd : (((l.Items.get? i.toNat).elim [] Item.Tags).any
          fun s => s == t) = true
      · rw [if_pos hd] at hit
        exact ih it hit
      · rw [if_neg hd] at hit
        have hm2 : it ∈ modifyAt l.Items i.toNat
            (fun x => { x with Tags := x.Tags ++ [t] }) := hit
        rcases text_from_modify l.Items i.toNat
            (fun x => { x with Tags := x.Tags ++ [t] })
            (fun x => rfl) it hm2 with ⟨it0, h0, he⟩
        rw [he]
        exact ih it0 h0
  | removeTag l i t hR ih =>
    intro it hit
    rw [RemoveTag_eq] at hit
    by_cases hc : (decide (i < 0) || decide ((l.Items.length : Int) ≤ i)) = true
    · rw [if_pos hc] at hit
      exact ih it hit
    · rw [if_neg hc] at hit
      rcases hrt : removeFirstTag ((l.Items.get? i.toNat).elim [] Item.Tags) t
          with _ | ts
      · rw [hrt] at hit
        exact ih it hit
      · rw [hrt] at hit
        have hm2 : it ∈ modifyAt l.Items i.toNat
            (fun x => { x with Tags := ts }) := hit
        rcases text_from_modify l.Items i.toNat (fun x => { x with Tags := ts })
            (fun x => rfl) it hm2 with ⟨it0, h0, he⟩
        rw [he]
        exact ih it0 h0
  | clearCompleted l hR ih =>
    intro it hit
    rw [ClearCompleted_items] at hit
    exact ih it (List.mem_filter.mp hit).1
  | sort l hR ih =>
    intro it hit
    exact ih it (mem_sort_items l it hit)

/-- Claim C1, counterexample: on the list ["A", "B"] (both incomplete),
`Complete 0` succeeds, yet afterwards the item at index 0 is "B" with
`Done = false` — the completed item was moved to the back by the sort, so
"the item at index i has done == true" fails in the post-state. -/
theorem claim_complete_index_cex :
    ((TodoList.mk [NewItem "A" 0, NewItem "B" 0]).Complete 0).2 = none ∧
    ((((TodoList.mk [NewItem "A" 0, NewItem "B" 0]).Complete 0).1.Items[0]?).map
      Item.Done) = some false ∧
    (((TodoList.mk [NewItem "A" 0, NewItem "B" 0]).Complete 0).1.Items.map
      Item.Text) = ["B", "A"] := by
  refine ⟨rfl, rfl, rfl⟩

/-- Claim C1 (amended): for a valid index i, `Complete i` succeeds, the
item that was at index i appears in the resulting list with
`done = true`, no completed item precedes an incomplete one, the result
is the stable partition of the marked list (each group in pre-call
relative order), and the items are a permutation of the marked list. -/
theorem claim_complete_valid (l : TodoList) (i : Int)
    (h0 : 0 ≤ i) (h1 : i < (l.Items.length : Int)) :
    (l.Complete i).2 = none ∧
    (l.Complete i).1.Items
      = (modifyAt l.Items i.toNat (fun it => { it with Done := true })).filter
          (fun it => !it.Done)
        ++ (modifyAt l.Items i.toNat (fun it => { it with Done := true })).filter
          (fun it => it.Done) ∧
    (∀ hi : i.toNat < l.Items.length,
      { l.Items.get ⟨i.toNat, hi⟩ with Done := true } ∈ (l.Complete i).1.Items) ∧
    (l.Complete i).1.Items.Pairwise (fun x y => x.Done = true → y.Done = true) ∧
    (l.Complete i).1.Items.Perm
      (modifyAt l.Items i.toNat (fun it => { it with Done := true })) := by
  have hc : ¬((decide (i < 0) || decide ((l.Items.length : Int) ≤ i)) = true) := by
    simp only [Bool.or_eq_true, decide_eq_true_eq, not_or, not_lt, not_le]
    omega
  have hmain : l.Complete i =
      (TodoList.Sort
        ⟨modifyAt l.Items i.toNat (fun it => { it with Done := true })⟩,
       none) := by
    rw [Complete_eq, if_neg hc]
  have hitems : (l.Complete i).1.Items
      = (modifyAt l.Items i.toNat (fun it => { it with Done := true })).filter
          (fun it => !it.Done)
        ++ (modifyAt l.Items i.toNat (fun it => { it with Done := true })).filter
          (fun it => it.Done) := by
    rw [hmain, Sort_eq_filter]
  refine ⟨by rw [hmain], hitems, ?_, ?_, ?_⟩
  · intro hi
    have hmem : { l.Items.get ⟨i.toNat, hi⟩ with Done := true }
        ∈ modifyAt l.Items i.toNat (fun it => { it with Done := true }) :=
      modifyAt_mem_self l.Items i.toNat _ hi
    rw [hitems]
    exact List.mem_append_right _ (List.mem_filter.mpr ⟨hmem, rfl⟩)
  · rw [hitems]
    exact partition_done_pairwise _
  · rw [hitems]
    exact filter_not_append_filter_perm (fun it => it.Done) _

/-- Witness for C1 (amended) at the one-item list ["A"], index 0. -/
theorem claim_complete_valid_witness :
    (0 : Int) ≤ 0 ∧
    (0 : Int) < ((TodoList.mk [NewItem "A" 0]).Items.length : Int) ∧
    ((TodoList.mk [NewItem "A" 0]).Complete 0).2 = none := by
  refine ⟨le_refl 0, by decide, ?_⟩
  exact (claim_complete_valid ⟨[NewItem "A" 0]⟩ 0 (le_refl 0) (by decide)).1

/-- Claim C2: every index-taking operation, given an index outside
[0, length), returns the "Item index out of Range" error and leaves the
list exactly unchanged. -/
theorem claim_index_out_of_range (l : TodoList) (i : Int) (t : String)
    (p d : Int) (tag : String)
    (h : i < 0 ∨ (l.Items.length : Int) ≤ i) :
    l.Complete i = (l, some oorMsg) ∧
    l.Uncomplete i = (l, some oorMsg) ∧
    l.Delete i = (l, some oorMsg) ∧
    l.Edit i t = (l, some oorMsg) ∧
    l.SetPriority i p = (l, some oorMsg) ∧
    l.SetDueDate i d = (l, some oorMsg) ∧
    l.AddTag i tag = (l, some oorMsg) ∧
    l.RemoveTag i tag = (l, some oorMsg) := by
  have hc : (decide (i < 0) || decide ((l.Items.length : Int) ≤ i)) = true := by
    rcases h with h | h <;> simp [h]
  refine ⟨?_, ?_, ?_, ?_, ?_, ?_, ?_, ?_⟩
  · rw [Complete_eq, if_pos hc]
  · rw [Uncomplete_eq, if_pos hc]
  · rw [Delete_eq, if_pos hc]
  · rw [Edit_eq, if_pos hc]
  · rw [SetPriority_eq, if_pos hc]
  · rw [SetDueDate_eq, if_pos hc]
  · rw [AddTag_eq, if_pos hc]
  · rw [RemoveTag_eq, if_pos hc]

/-- Witness for C2 at the empty list and index 0 (0 ≥ length = 0). -/
theorem claim_index_out_of_range_witness :
    ((0 : Int) < 0 ∨ ((NewList.Items.length : Int) ≤ 0)) ∧
    NewList.Complete 0 = (NewList, some oorMsg) ∧
    NewList.RemoveTag 0 "w" = (NewList, some oorMsg) := by
  have h : (0 : Int) < 0 ∨ ((NewList.Items.length : Int) ≤ 0) :=
    Or.inr (by decide)
  have hall := claim_index_out_of_range NewList 0 "x" PriorityHigh 5 "w" h
  exact ⟨h, hall.1, hall.2.2.2.2.2.2.2⟩

/-- Claim C3: `Add t` fails with no change when an item with text t
exists, otherwise appends exactly `NewItem t` at the end leaving the rest
unchanged; and after a successful `Add t`, a second `Add t` fails with no
change. -/
theorem claim_add_duplicate (l : TodoList) (t : String) (now now2 : Int) :
    ((∃ it ∈ l.Items, it.Text = t) →
      l.Add t now = (l, some "Item already exists in the list")) ∧
    ((∀ it ∈ l.Items, it.Text ≠ t) →
      l.Add t now = (⟨l.Items ++ [NewItem t now]⟩, none)) ∧
    ((l.Add t now).2 = none →
      (l.Add t now).1.Add t now2
        = ((l.Add t now).1, some "Item already exists in the list")) := by
  refine ⟨?_, ?_, ?_⟩
  · rintro ⟨it, hmem, htext⟩
    have hany : (l.Items.any fun existing => existing.Text == t) = true :=
      List.any_eq_true.mpr ⟨it, hmem, by simp [htext]⟩
    rw [Add_eq, if_pos hany]
  · intro hno
    have hnot : ¬((l.Items.any fun existing => existing.Text == t) = true) := by
      intro hcon
      rcases List.any_eq_true.mp hcon with ⟨it, hmem, hbeq⟩
      exact hno it hmem (by simpa using hbeq)
    rw [Add_eq, if_neg hnot]
  · intro hok
    by_cases hany : (l.Items.any fun existing => existing.Text == t) = true
    · rw [Add_eq, if_pos hany] at hok
      simp at hok
    · have h1 : l.Add t now = (⟨l.Items ++ [NewItem t now]⟩, none) := by
        rw [Add_eq, if_neg hany]
      have hany2 : ((l.Items ++ [NewItem t now]).any
          fun existing => existing.Text == t) = true :=
        List.any_eq_true.mpr ⟨NewItem t now,
          List.mem_append_right _ (List.mem_singleton_self _),
          by simp [NewItem]⟩
      rw [h1, Add_eq, if_pos hany2]

/-- Witness for C3: adding "a" to the empty list appends it; adding "a"
again fails with the list unchanged. -/
theorem claim_add_duplicate_witness :
    NewList.Add "a" 0 = (⟨[NewItem "a" 0]⟩, none) ∧
    (NewList.Add "a" 0).1.Add "a" 1
      = ((NewList.Add "a" 0).1, some "Item already exists in the list") := by
  have h := claim_add_duplicate NewList "a" 0 1
  refine ⟨?_, h.2.2 rfl⟩
  have h2 := h.2.1 (by intro it hit; simp [NewList] at hit)
  simpa [NewList] using h2

/-- Claim C4: `Save` then `Load` into a fresh empty list succeeds and
reproduces the items exactly — same text, done flag, priority, due date,
tag sequence (and creation time), in the same order. -/
theorem claim_save_load_roundtrip (l : TodoList) :
    NewList.Load l.Save = (l, none) := by
  simp [TodoList.Load, TodoList.Save, unmarshal_roundtrip]

/-- Claim C5, counterexample: `Add ""` on the empty list is a public
operation sequence that succeeds and produces a reachable list whose
single item has empty text — `Add` never validates emptiness. -/
theorem claim_texts_nonempty_cex :
    Reachable (NewList.Add "" 0).1 ∧
    (NewList.Add "" 0).2 = none ∧
    ((NewList.Add "" 0).1.Items.map Item.Text) = [""] :=
  ⟨Reachable.add NewList "" 0 Reachable.nil, rfl, rfl⟩

/-- Claim C5 (amended): in every list reachable through the public
operations in which every `Add` call is given non-empty text, every
item's text is non-empty (`Edit` rejects empty replacement text, and no
other operation changes a text). -/
theorem claim_texts_nonempty (l : TodoList) (h : ReachableNE l) :
    l.Items.all (fun it => it.Text != "") = true := by
  rw [List.all_eq_true]
  intro it hit
  simpa using reachableNE_texts l h it hit

/-- Witness for C5 (amended) at the list reached by `Add "x"`. -/
theorem claim_texts_nonempty_witness :
    (NewList.Add "x" 0).1.Items.all (fun it => it.Text != "") = true :=
  claim_texts_nonempty _
    (ReachableNE.add NewList "x" 0 ReachableNE.nil (by decide))

/-- Claim C6, counterexample: loading a syntactically valid JSON file
that is not a valid `List` encoding (`Done` decodes, `Text` is a number)
returns a decode error but mutates the receiver: the pre-existing item's
done flag has been overwritten. -/
theorem claim_load_no_mutation_cex :
    (TodoList.mk [NewItem "a" 0]).Load c6File
      = (⟨[{ NewItem "a" 0 with Done := true }]⟩,
         some "json: cannot unmarshal") ∧
    (⟨[{ NewItem "a" 0 with Done := true }]⟩ : TodoList)
      ≠ ⟨[NewItem "a" 0]⟩ := by
  exact ⟨rfl, by decide⟩

/-- Claim C6 (amended): when the file is unreadable or not syntactically
valid JSON, `Load` fails and the receiver is exactly unchanged
(`json.Unmarshal` syntax-checks before decoding); a decode failure on
well-formed JSON is still reported, but may leave the receiver partially
mutated. -/
theorem claim_load_invalid_no_mutation (l : TodoList) :
    l.Load FileData.invalid = (l, some "invalid JSON input") := rfl

/-- Claim C7: `Sort` is the stable partition putting incomplete items
first (each group keeping its prior relative order), it never fails, it
preserves the items up to permutation, no completed item precedes an
incomplete one afterwards, and it is idempotent. -/
theorem claim_sort_stable_partition (l : TodoList) :
    l.Sort.Items = l.Items.filter (fun it => !it.Done)
        ++ l.Items.filter (fun it => it.Done) ∧
    l.Sort.Sort = l.Sort ∧
    l.Sort.Items.Perm l.Items ∧
    l.Sort.Items.Pairwise (fun x y => x.Done = true → y.Done = true) := by
  refine ⟨by rw [Sort_eq_filter], Sort_idem l, ?_, ?_⟩
  · rw [Sort_eq_filter]
    exact filter_not_append_filter_perm (fun it => it.Done) l.Items
  · rw [Sort_eq_filter]
    exact partition_done_pairwise l.Items

/-- Claim C8: `Search` returns, in original list order and each item at
most once per occurrence, exactly the items whose text or one of whose
tags contains the query case-insensitively — it equals a filter of the
item list by the spec's match predicate (and, being a pure function of
the list, mutates nothing and cannot fail). -/
theorem claim_search_spec (l : TodoList) (query : String) :
    l.Search query = l.Items.filter (specSearchMatch query) :=
  search_eq_filter l query

/-- Claim C9: `GetOverdue` returns, in list order, exactly the items
with a due date set that is strictly before the current instant and with
`done = false`; every returned item satisfies these conditions. -/
theorem claim_overdue_spec (l : TodoList) (now : Int) :
    l.GetOverdue now = l.Items.filter (specOverdue now) ∧
    ∀ it ∈ l.GetOverdue now,
      (∃ d, it.DueDate = some d ∧ d < now) ∧ it.Done = false := by
  refine ⟨overdue_eq_filter l now, ?_⟩
  intro it hit
  rw [overdue_eq_filter] at hit
  have h2 := (List.mem_filter.mp hit).2
  unfold specOverdue at h2
  rcases hDD : it.DueDate with _ | d
  · rw [hDD] at h2
    simp at h2
  · rw [hDD] at h2
    simp at h2
    exact ⟨⟨d, rfl, h2.1⟩, h2.2⟩

/-- Claim C10: searching with the empty query returns every item of the
list, in original order — the empty string is a substring of every
lowered text. -/
theorem claim_search_empty_query (l : TodoList) : l.Search "" = l.Items := by
  rw [search_eq_filter]
  apply List.filter_eq_self.mpr
  intro it hit
  simp [specSearchMatch, toLower_empty, goContains_empty]
